import Mathlib

/-
  A shallow embedding of the `errgroup` package (errgroup.go).

  Go strings are modelled as `List Char`, Go `error` values as a wrapper
  around their printable message, and the `interface{}` payload of a panic
  as an inductive covering the payload shapes exercised by the package
  (nil, a plain string, an error value).

  The concurrent goroutine bodies launched by `Group.Go` are modelled by the
  per-task completion function `Group.finish`: each finishing task performs
  its slot writes and `cancel` calls atomically (the source guards them with
  `sync.Once`), and a whole execution is a sequence of such completions.
  `runTasks` folds a commit-order sequence of task terminations over a group
  state; `Group.wait` and `Group.stop` model `Wait` and `Stop` observed after
  the `sync.WaitGroup` join has drained.
-/

namespace Errgroup

/-- A Go `error` value, identified by its printable message. -/
structure GoError where
  msg : List Char
deriving DecidableEq, Repr

/-- The `interface{}` payload recovered from a panic: nil, a plain string,
or a value implementing `error`. -/
inductive PanicPayload where
  | nilValue : PanicPayload
  | stringValue : List Char → PanicPayload
  | errorValue : GoError → PanicPayload
deriving DecidableEq, Repr

/-- The Go type assertion `v.(error)`: does the payload implement `error`? -/
def PanicPayload.isError : PanicPayload → Bool
  | .errorValue _ => true
  | _ => false

/-- `fmt.Sprint` / `%v` of a panic payload. -/
def goSprint : PanicPayload → List Char
  | .nilValue => ['<', 'n', 'i', 'l', '>']
  | .stringValue s => s
  | .errorValue e => e.msg

/-- `bytes.IndexByte(stack, '\n')` followed by `stack = stack[line+1:]`:
drop everything up to and including the first newline; leave the string
unchanged when it has no newline (the `line >= 0` guard in the source). -/
def trimFirstLine (s : List Char) : List Char :=
  if s.contains '\n' then dropHeadLine s else s
where
  dropHeadLine : List Char → List Char
    | [] => []
    | c :: rest => if c = '\n' then rest else dropHeadLine rest

/-- A `panicStack` is an arbitrary value recovered from a panic augmented
with the stack trace at which the panic occurred. -/
structure panicStack where
  value : PanicPayload
  stack : List Char
deriving DecidableEq, Repr

/-- `func (p panicStack) String() string`. -/
def panicStack.string (p : panicStack) : List Char :=
  goSprint p.value ++ ('\n' :: '\n' :: ('v' :: 'i' :: 'a' :: ' ' :: [])
    ++ ('e' :: 'r' :: 'r' :: 'g' :: 'r' :: 'o' :: 'u' :: 'p' :: '.' :: [])
    ++ ('G' :: 'o' :: ':' :: '\n' :: [])) ++ p.stack

/-- The `interface{}` value stored in `g.panic` and re-raised by `Wait`:
either the recovered payload itself (when it implements `error`) or a
`panicStack` wrapping it. -/
inductive PanicValue where
  | plain : PanicPayload → PanicValue
  | wrapped : panicStack → PanicValue
deriving DecidableEq, Repr

/-- Printable form (`fmt.Sprint`) of the re-raised panic value; for a
`panicStack`, Go picks its `String()` method. -/
def PanicValue.sprint : PanicValue → List Char
  | .plain v => goSprint v
  | .wrapped p => p.string

/-- `errorOrStack` returns `v` if it implements `error`, or a `panicStack`
that wraps `v` together with the (first-line-trimmed) stack otherwise.
The raw stack captured by `runtime.Stack` is an input of the model. -/
def errorOrStack (v : PanicPayload) (stack : List Char) : PanicValue :=
  if v.isError then .plain v else .wrapped ⟨v, trimFirstLine stack⟩

/-- The state of a `Group`: the `sync.WaitGroup` counter, the two
`sync.Once` guards with their slots, the abandonment flag, and the
cancellation wiring. `ctxCancelCount` counts how many times the bound
`context.CancelFunc` has actually been invoked. -/
structure Group where
  pending : Nat
  cancelOnWait : Bool
  hasCancelCtx : Bool
  cancelOnceUsed : Bool
  ctxCancelCount : Nat
  errOnceUsed : Bool
  err : Option GoError
  terminateOnceUsed : Bool
  panicV : Option PanicValue
  goexit : Bool
deriving DecidableEq, Repr

/-- The zero `Group`: valid, no cancellation wiring. -/
def zeroGroup : Group :=
  { pending := 0, cancelOnWait := false, hasCancelCtx := false
    cancelOnceUsed := false, ctxCancelCount := 0
    errOnceUsed := false, err := none
    terminateOnceUsed := false, panicV := none, goexit := false }

/-- `WithContext`: binds a cancel function and sets the legacy
auto-cancel-on-`Wait` flag. -/
def WithContextGroup : Group :=
  { zeroGroup with hasCancelCtx := true, cancelOnWait := true }

/-- `New`: binds a cancel function; no auto-cancel on `Wait`. -/
def NewGroup : Group :=
  { zeroGroup with hasCancelCtx := true, cancelOnWait := false }

/-- `func (g *Group) cancel()`: `cancelOnce.Do` invoking the bound
`context.CancelFunc` when one is present. -/
def Group.cancel (g : Group) : Group :=
  if g.cancelOnceUsed then g
  else { g with cancelOnceUsed := true
                ctxCancelCount := g.ctxCancelCount + (if g.hasCancelCtx then 1 else 0) }

/-- The `g.wg.Add(1)` performed by `Go` before launching the goroutine. -/
def Group.goAdd (g : Group) : Group :=
  { g with pending := g.pending + 1 }

/-- How the function `f` passed to `Go` terminates: a normal return with an
optional error, a panic with a payload, or `runtime.Goexit`. -/
inductive FTermination where
  | returns : Option GoError → FTermination
  | panics : PanicPayload → FTermination
  | goexits : FTermination
deriving DecidableEq, Repr

/-- `doubleDeferSandwich` classifies the termination of `f` into
`(panicValue, err, goexiting)`: on a panic the recovered payload is passed
through `errorOrStack` with the stack captured at recovery time; on
`runtime.Goexit` only the `goexiting` flag reaches the caller's deferred
function (the sandwich itself never returns). -/
def doubleDeferSandwich (stack : List Char) :
    FTermination → Option PanicValue × Option GoError × Bool
  | .returns e => (none, e, false)
  | .panics v => (some (errorOrStack v stack), none, false)
  | .goexits => (none, none, true)

/-- The completion processing of one goroutine launched by `Go`: the body
after `doubleDeferSandwich` (panic commit via `terminateOnce`, else error
commit via `errOnce`), then the deferred function (goexit commit via
`terminateOnce`, then `wg.Done()`). `stack` is the raw stack that
`runtime.Stack` would capture for this task. -/
def Group.finish (g : Group) (stack : List Char) (t : FTermination) : Group :=
  let r := doubleDeferSandwich stack t
  let g1 :=
    match r.1 with
    | some pv =>
        if g.terminateOnceUsed then g
        else ({ g with terminateOnceUsed := true, panicV := some pv }).cancel
    | none =>
        match r.2.1 with
        | some e =>
            if g.errOnceUsed then g
            else ({ g with errOnceUsed := true, err := some e }).cancel
        | none => g
  let g2 :=
    if r.2.2 then
      if g1.terminateOnceUsed then g1
      else ({ g1 with terminateOnceUsed := true, goexit := true }).cancel
    else g1
  { g2 with pending := g2.pending - 1 }

/-- One completed task: the raw stack available to it and how its `f`
terminated. -/
structure TaskRun where
  stack : List Char
  term : FTermination
deriving DecidableEq, Repr

/-- Fold a commit-order sequence of task completions over a group state. -/
def runTasks (g : Group) (l : List TaskRun) : Group :=
  l.foldl (fun g t => g.finish t.stack t.term) g

/-- The caller-visible outcome of `Wait`: a re-raised panic, a propagated
`runtime.Goexit`, or a normal return carrying the (possibly nil) error. -/
inductive WaitOutcome where
  | panicked : PanicValue → WaitOutcome
  | goexited : WaitOutcome
  | ret : Option GoError → WaitOutcome
deriving DecidableEq, Repr

/-- `func (g *Group) Wait() error`, observed after `wg.Wait()` has drained:
fire the legacy auto-cancel when `cancelOnWait` is set, then re-raise a
captured panic, else propagate a captured Goexit, else return `g.err`.
Returns the outcome together with the post-state. -/
def Group.wait (g : Group) : WaitOutcome × Group :=
  let g1 := if g.cancelOnWait then g.cancel else g
  match g1.panicV with
  | some pv => (.panicked pv, g1)
  | none => if g1.goexit then (.goexited, g1) else (.ret g1.err, g1)

/-- `func (g *Group) Stop()`: cancel, then join (`wg.Wait()` changes no
group state). Surfaces no outcome. -/
def Group.stop (g : Group) : Group :=
  g.cancel

/-- A group-lifetime event: a task completing, a `Stop` call, a `Wait`
call, or a `Go` registration. -/
inductive Event where
  | task : TaskRun → Event
  | stopCall : Event
  | waitCall : Event
  | goCall : Event
deriving DecidableEq, Repr

/-- Apply one lifetime event to the group state. -/
def Group.applyEvent (g : Group) : Event → Group
  | .task t => g.finish t.stack t.term
  | .stopCall => g.stop
  | .waitCall => (g.wait).2
  | .goCall => g.goAdd

/-- Fold a sequence of lifetime events over a group state. -/
def runEvents (g : Group) (evs : List Event) : Group :=
  evs.foldl Group.applyEvent g

/-- A group state whose outcome slots are all still unset, as produced by
any of the three constructors. -/
def Group.Fresh (g : Group) : Prop :=
  g.err = none ∧ g.errOnceUsed = false ∧ g.panicV = none ∧
    g.goexit = false ∧ g.terminateOnceUsed = false

instance (g : Group) : Decidable g.Fresh := by
  unfold Group.Fresh; infer_instance

example : zeroGroup.Fresh ∧ NewGroup.Fresh ∧ WithContextGroup.Fresh := by decide

/-! ### Basic rewriting lemmas -/

theorem cancel_of_used {g : Group} (h : g.cancelOnceUsed = true) : g.cancel = g := by
  unfold Group.cancel; simp [h]

theorem cancel_of_unused {g : Group} (h : g.cancelOnceUsed = false) :
    g.cancel = { g with cancelOnceUsed := true
                        ctxCancelCount :=
                          g.ctxCancelCount + (if g.hasCancelCtx then 1 else 0) } := by
  unfold Group.cancel; simp [h]

@[simp] theorem cancel_err (g : Group) : (g.cancel).err = g.err := by
  unfold Group.cancel; split <;> rfl

@[simp] theorem cancel_errOnceUsed (g : Group) : (g.cancel).errOnceUsed = g.errOnceUsed := by
  unfold Group.cancel; split <;> rfl

@[simp] theorem cancel_panicV (g : Group) : (g.cancel).panicV = g.panicV := by
  unfold Group.cancel; split <;> rfl

@[simp] theorem cancel_goexit (g : Group) : (g.cancel).goexit = g.goexit := by
  unfold Group.cancel; split <;> rfl

@[simp] theorem cancel_terminateOnceUsed (g : Group) :
    (g.cancel).terminateOnceUsed = g.terminateOnceUsed := by
  unfold Group.cancel; split <;> rfl

@[simp] theorem cancel_pending (g : Group) : (g.cancel).pending = g.pending := by
  unfold Group.cancel; split <;> rfl

@[simp] theorem cancel_cancelOnWait (g : Group) : (g.cancel).cancelOnWait = g.cancelOnWait := by
  unfold Group.cancel; split <;> rfl

@[simp] theorem cancel_hasCancelCtx (g : Group) : (g.cancel).hasCancelCtx = g.hasCancelCtx := by
  unfold Group.cancel; split <;> rfl

theorem cancel_cancelOnceUsed (g : Group) : (g.cancel).cancelOnceUsed = true := by
  unfold Group.cancel; split <;> simp_all

theorem finish_returns_none (g : Group) (s : List Char) :
    g.finish s (.returns none) = { g with pending := g.pending - 1 } := rfl

theorem finish_returns_some_of_unused {g : Group} (s : List Char) (e : GoError)
    (h : g.errOnceUsed = false) :
    g.finish s (.returns (some e)) =
      { ({ g with errOnceUsed := true, err := some e }).cancel with
          pending := g.pending - 1 } := by
  unfold Group.finish doubleDeferSandwich
  simp [h]

theorem finish_returns_some_of_used {g : Group} (s : List Char) (e : GoError)
    (h : g.errOnceUsed = true) :
    g.finish s (.returns (some e)) = { g with pending := g.pending - 1 } := by
  unfold Group.finish doubleDeferSandwich
  simp [h]

theorem finish_panics_of_unused {g : Group} (s : List Char) (v : PanicPayload)
    (h : g.terminateOnceUsed = false) :
    g.finish s (.panics v) =
      { ({ g with terminateOnceUsed := true
                  panicV := some (errorOrStack v s) }).cancel with
          pending := g.pending - 1 } := by
  unfold Group.finish doubleDeferSandwich
  simp [h]

theorem finish_panics_of_used {g : Group} (s : List Char) (v : PanicPayload)
    (h : g.terminateOnceUsed = true) :
    g.finish s (.panics v) = { g with pending := g.pending - 1 } := by
  unfold Group.finish doubleDeferSandwich
  simp [h]

theorem finish_goexits_of_unused {g : Group} (s : List Char)
    (h : g.terminateOnceUsed = false) :
    g.finish s .goexits =
      { ({ g with terminateOnceUsed := true, goexit := true }).cancel with
          pending := g.pending - 1 } := by
  unfold Group.finish doubleDeferSandwich
  simp [h]

theorem finish_goexits_of_used {g : Group} (s : List Char)
    (h : g.terminateOnceUsed = true) :
    g.finish s .goexits = { g with pending := g.pending - 1 } := by
  unfold Group.finish doubleDeferSandwich
  simp [h]

theorem runTasks_nil (g : Group) : runTasks g [] = g := rfl

theorem runTasks_cons (g : Group) (t : TaskRun) (l : List TaskRun) :
    runTasks g (t :: l) = runTasks (g.finish t.stack t.term) l := rfl

theorem runEvents_nil (g : Group) : runEvents g [] = g := rfl

theorem runEvents_cons (g : Group) (e : Event) (l : List Event) :
    runEvents g (e :: l) = runEvents (g.applyEvent e) l := rfl

/-! ### Field preservation by a single task completion -/

theorem finish_cancelOnWait (g : Group) (s : List Char) (t : FTermination) :
    (g.finish s t).cancelOnWait = g.cancelOnWait := by
  rcases t with (_ | e) | v | _
  · rw [finish_returns_none]
  · cases h : g.errOnceUsed
    · rw [finish_returns_some_of_unused s e h]; simp
    · rw [finish_returns_some_of_used s e h]
  · cases h : g.terminateOnceUsed
    · rw [finish_panics_of_unused s v h]; simp
    · rw [finish_panics_of_used s v h]
  · cases h : g.terminateOnceUsed
    · rw [finish_goexits_of_unused s h]; simp
    · rw [finish_goexits_of_used s h]

theorem finish_hasCancelCtx (g : Group) (s : List Char) (t : FTermination) :
    (g.finish s t).hasCancelCtx = g.hasCancelCtx := by
  rcases t with (_ | e) | v | _
  · rw [finish_returns_none]
  · cases h : g.errOnceUsed
    · rw [finish_returns_some_of_unused s e h]; simp
    · rw [finish_returns_some_of_used s e h]
  · cases h : g.terminateOnceUsed
    · rw [finish_panics_of_unused s v h]; simp
    · rw [finish_panics_of_used s v h]
  · cases h : g.terminateOnceUsed
    · rw [finish_goexits_of_unused s h]; simp
    · rw [finish_goexits_of_used s h]

theorem finish_err_of_used {g : Group} (s : List Char) (t : FTermination)
    (h : g.errOnceUsed = true) :
    (g.finish s t).err = g.err ∧ (g.finish s t).errOnceUsed = true := by
  rcases t with (_ | e) | v | _
  · rw [finish_returns_none]; exact ⟨rfl, h⟩
  · rw [finish_returns_some_of_used s e h]; exact ⟨rfl, h⟩
  · cases hh : g.terminateOnceUsed
    · rw [finish_panics_of_unused s v hh]; simp [h]
    · rw [finish_panics_of_used s v hh]; exact ⟨rfl, h⟩
  · cases hh : g.terminateOnceUsed
    · rw [finish_goexits_of_unused s hh]; simp [h]
    · rw [finish_goexits_of_used s hh]; exact ⟨rfl, h⟩

theorem finish_returns_term (g : Group) (s : List Char) (eo : Option GoError) :
    (g.finish s (.returns eo)).panicV = g.panicV ∧
      (g.finish s (.returns eo)).goexit = g.goexit ∧
      (g.finish s (.returns eo)).terminateOnceUsed = g.terminateOnceUsed := by
  rcases eo with _ | e
  · rw [finish_returns_none]; exact ⟨rfl, rfl, rfl⟩
  · cases h : g.errOnceUsed
    · rw [finish_returns_some_of_unused s e h]; simp
    · rw [finish_returns_some_of_used s e h]; exact ⟨rfl, rfl, rfl⟩

theorem finish_term_of_used {g : Group} (s : List Char) (t : FTermination)
    (h : g.terminateOnceUsed = true) :
    (g.finish s t).panicV = g.panicV ∧ (g.finish s t).goexit = g.goexit ∧
      (g.finish s t).terminateOnceUsed = true := by
  rcases t with (_ | e) | v | _
  · rw [finish_returns_none]; exact ⟨rfl, rfl, h⟩
  · cases hh : g.errOnceUsed
    · rw [finish_returns_some_of_unused s e hh]; simp [h]
    · rw [finish_returns_some_of_used s e hh]; exact ⟨rfl, rfl, h⟩
  · rw [finish_panics_of_used s v h]; exact ⟨rfl, rfl, h⟩
  · rw [finish_goexits_of_used s h]; exact ⟨rfl, rfl, h⟩

theorem finish_panics_fields {g : Group} (s : List Char) (v : PanicPayload)
    (h : g.terminateOnceUsed = false) :
    (g.finish s (.panics v)).panicV = some (errorOrStack v s) ∧
      (g.finish s (.panics v)).goexit = g.goexit ∧
      (g.finish s (.panics v)).terminateOnceUsed = true := by
  rw [finish_panics_of_unused s v h]; simp

theorem finish_goexits_fields {g : Group} (s : List Char)
    (h : g.terminateOnceUsed = false) :
    (g.finish s .goexits).panicV = g.panicV ∧
      (g.finish s .goexits).goexit = true ∧
      (g.finish s .goexits).terminateOnceUsed = true := by
  rw [finish_goexits_of_unused s h]; simp

/-! ### Run-level lemmas -/

theorem runTasks_cancelOnWait (l : List TaskRun) (g : Group) :
    (runTasks g l).cancelOnWait = g.cancelOnWait := by
  induction l generalizing g with
  | nil => rfl
  | cons t rest ih =>
      rw [runTasks_cons]
      exact (ih _).trans (finish_cancelOnWait g t.stack t.term)

theorem runTasks_hasCancelCtx (l : List TaskRun) (g : Group) :
    (runTasks g l).hasCancelCtx = g.hasCancelCtx := by
  induction l generalizing g with
  | nil => rfl
  | cons t rest ih =>
      rw [runTasks_cons]
      exact (ih _).trans (finish_hasCancelCtx g t.stack t.term)

theorem runTasks_success_cancel (l : List TaskRun) (g : Group)
    (h : ∀ x ∈ l, x.term = .returns none) :
    (runTasks g l).cancelOnceUsed = g.cancelOnceUsed ∧
      (runTasks g l).ctxCancelCount = g.ctxCancelCount := by
  induction l generalizing g with
  | nil => exact ⟨rfl, rfl⟩
  | cons t rest ih =>
      rw [runTasks_cons]
      have hfin : g.finish t.stack t.term = { g with pending := g.pending - 1 } := by
        rw [h t (List.mem_cons_self t rest), finish_returns_none]
      rw [hfin]
      exact ih _ (fun y hy => h y (List.mem_cons_of_mem _ hy))

theorem runTasks_err_stable (l : List TaskRun) (g : Group) (h : g.errOnceUsed = true) :
    (runTasks g l).err = g.err ∧ (runTasks g l).errOnceUsed = true := by
  induction l generalizing g with
  | nil => exact ⟨rfl, h⟩
  | cons t rest ih =>
      rw [runTasks_cons]
      obtain ⟨he, hu⟩ := finish_err_of_used t.stack t.term h
      obtain ⟨ihe, ihu⟩ := ih _ hu
      exact ⟨ihe.trans he, ihu⟩

theorem runTasks_term_stable (l : List TaskRun) (g : Group)
    (h : g.terminateOnceUsed = true) :
    (runTasks g l).panicV = g.panicV ∧ (runTasks g l).goexit = g.goexit ∧
      (runTasks g l).terminateOnceUsed = true := by
  induction l generalizing g with
  | nil => exact ⟨rfl, rfl, h⟩
  | cons t rest ih =>
      rw [runTasks_cons]
      obtain ⟨hp, hg, hu⟩ := finish_term_of_used t.stack t.term h
      obtain ⟨ihp, ihg, ihu⟩ := ih _ hu
      exact ⟨ihp.trans hp, ihg.trans hg, ihu⟩

theorem runTasks_normals_err (l : List (Option GoError)) (g : Group)
    (hu : g.errOnceUsed = false) (he : g.err = none) :
    (runTasks g (l.map fun e => ⟨[], .returns e⟩)).err = l.findSome? id := by
  induction l generalizing g with
  | nil => exact he
  | cons eo rest ih =>
      rcases eo with _ | e
      · rw [show runTasks g ((none :: rest).map fun e => TaskRun.mk [] (.returns e))
              = runTasks { g with pending := g.pending - 1 }
                  (rest.map fun e => TaskRun.mk [] (.returns e)) from rfl,
            List.findSome?_cons_of_isNone _ (by simp)]
        exact ih _ hu he
      · rw [show runTasks g (((some e) :: rest).map fun e => TaskRun.mk [] (.returns e))
              = runTasks (g.finish [] (.returns (some e)))
                  (rest.map fun e => TaskRun.mk [] (.returns e)) from rfl,
            List.findSome?_cons_of_isSome _ (by simp)]
        have hfin : (g.finish [] (.returns (some e))).err = some e ∧
            (g.finish [] (.returns (some e))).errOnceUsed = true := by
          rw [finish_returns_some_of_unused [] e hu]; simp
        obtain ⟨hste, _⟩ := runTasks_err_stable (rest.map fun e => ⟨[], .returns e⟩) _ hfin.2
        exact hste.trans hfin.1

theorem runTasks_normals_term (l : List (Option GoError)) (g : Group) :
    (runTasks g (l.map fun e => ⟨[], .returns e⟩)).panicV = g.panicV ∧
      (runTasks g (l.map fun e => ⟨[], .returns e⟩)).goexit = g.goexit ∧
      (runTasks g (l.map fun e => ⟨[], .returns e⟩)).terminateOnceUsed
        = g.terminateOnceUsed := by
  induction l generalizing g with
  | nil => exact ⟨rfl, rfl, rfl⟩
  | cons eo rest ih =>
      rw [List.map_cons, runTasks_cons]
      obtain ⟨hp, hg, hu⟩ := finish_returns_term g [] eo
      obtain ⟨ihp, ihg, ihu⟩ := ih (g.finish [] (.returns eo))
      exact ⟨ihp.trans hp, ihg.trans hg, ihu.trans hu⟩

theorem wait_fst (g : Group) :
    (g.wait).1 =
      match g.panicV with
      | some pv => .panicked pv
      | none => if g.goexit then .goexited else .ret g.err := by
  unfold Group.wait
  cases h : g.cancelOnWait <;>
    rcases hp : g.panicV with _ | pv <;>
      cases hg : g.goexit <;>
        simp [h, hp, hg, cancel_panicV, cancel_goexit, cancel_err]

theorem wait_snd (g : Group) : (g.wait).2 = if g.cancelOnWait then g.cancel else g := by
  unfold Group.wait
  rcases hp : (if g.cancelOnWait = true then g.cancel else g).panicV with _ | pv
  · cases hg : (if g.cancelOnWait = true then g.cancel else g).goexit <;> simp [hp, hg]
  · simp [hp]

/-! ### The `terminateOnce` invariant: the panic slot and the goexit flag
are mutually exclusive, both guarded by one `sync.Once`. -/

def TermInv (g : Group) : Prop :=
  (g.terminateOnceUsed = false → g.panicV = none ∧ g.goexit = false) ∧
    ¬(g.panicV.isSome = true ∧ g.goexit = true)

theorem fresh_termInv {g : Group} (h : g.Fresh) : TermInv g := by
  obtain ⟨-, -, hp, hg, -⟩ := h
  exact ⟨fun _ => ⟨hp, hg⟩, by simp [hp]⟩

theorem termInv_finish {g : Group} (s : List Char) (t : FTermination)
    (h : TermInv g) : TermInv (g.finish s t) := by
  rcases t with (_ | e) | v | _
  · rw [finish_returns_none]; exact h
  · cases hu : g.errOnceUsed
    · rw [finish_returns_some_of_unused s e hu]
      simpa [TermInv] using h
    · rw [finish_returns_some_of_used s e hu]; exact h
  · cases hu : g.terminateOnceUsed
    · rw [finish_panics_of_unused s v hu]
      obtain ⟨hnone, -⟩ := h
      have hg := (hnone hu).2
      exact ⟨by simp, by simp [hg]⟩
    · rw [finish_panics_of_used s v hu]; exact h
  · cases hu : g.terminateOnceUsed
    · rw [finish_goexits_of_unused s hu]
      obtain ⟨hnone, -⟩ := h
      have hp := (hnone hu).1
      exact ⟨by simp, by simp [hp]⟩
    · rw [finish_goexits_of_used s hu]; exact h

theorem termInv_runTasks (l : List TaskRun) {g : Group} (h : TermInv g) :
    TermInv (runTasks g l) := by
  induction l generalizing g with
  | nil => exact h
  | cons t rest ih => exact ih (termInv_finish t.stack t.term h)

/-! ### The `cancelOnce` invariant: the bound `context.CancelFunc` runs at
most once over a whole group lifetime. -/

def CancelInv (g : Group) : Prop :=
  g.ctxCancelCount ≤ 1 ∧ (g.cancelOnceUsed = false → g.ctxCancelCount = 0)

theorem cancelInv_cancel {g : Group} (h : CancelInv g) : CancelInv g.cancel := by
  unfold Group.cancel
  split
  · exact h
  · next hu =>
      have h0 : g.ctxCancelCount = 0 := h.2 (by revert hu; cases g.cancelOnceUsed <;> simp)
      refine ⟨?_, fun hx => by simp at hx⟩
      simp [h0]
      split <;> simp

theorem cancelInv_finish {g : Group} (s : List Char) (t : FTermination)
    (h : CancelInv g) : CancelInv (g.finish s t) := by
  rcases t with (_ | e) | v | _
  · rw [finish_returns_none]; exact h
  · cases hu : g.errOnceUsed
    · rw [finish_returns_some_of_unused s e hu]
      exact cancelInv_cancel h
    · rw [finish_returns_some_of_used s e hu]; exact h
  · cases hu : g.terminateOnceUsed
    · rw [finish_panics_of_unused s v hu]
      exact cancelInv_cancel h
    · rw [finish_panics_of_used s v hu]; exact h
  · cases hu : g.terminateOnceUsed
    · rw [finish_goexits_of_unused s hu]
      exact cancelInv_cancel h
    · rw [finish_goexits_of_used s hu]; exact h

theorem cancelInv_applyEvent {g : Group} (ev : Event) (h : CancelInv g) :
    CancelInv (g.applyEvent ev) := by
  rcases ev with t | _ | _ | _
  · exact cancelInv_finish t.stack t.term h
  · exact cancelInv_cancel h
  · show CancelInv (g.wait).2
    rw [wait_snd]
    split
    · exact cancelInv_cancel h
    · exact h
  · exact h

theorem cancelInv_runEvents (evs : List Event) {g : Group} (h : CancelInv g) :
    CancelInv (runEvents g evs) := by
  induction evs generalizing g with
  | nil => exact h
  | cons ev rest ih => exact ih (cancelInv_applyEvent ev h)

/-! ### The no-context invariant: with no bound cancel function, firing the
signal never invokes anything. -/

def NoCtx (g : Group) : Prop :=
  g.hasCancelCtx = false ∧ g.ctxCancelCount = 0

theorem noCtx_cancel {g : Group} (h : NoCtx g) : NoCtx g.cancel := by
  unfold Group.cancel
  split
  · exact h
  · exact ⟨h.1, by simp [h.1, h.2]⟩

theorem noCtx_finish {g : Group} (s : List Char) (t : FTermination)
    (h : NoCtx g) : NoCtx (g.finish s t) := by
  rcases t with (_ | e) | v | _
  · rw [finish_returns_none]; exact h
  · cases hu : g.errOnceUsed
    · rw [finish_returns_some_of_unused s e hu]; exact noCtx_cancel h
    · rw [finish_returns_some_of_used s e hu]; exact h
  · cases hu : g.terminateOnceUsed
    · rw [finish_panics_of_unused s v hu]; exact noCtx_cancel h
    · rw [finish_panics_of_used s v hu]; exact h
  · cases hu : g.terminateOnceUsed
    · rw [finish_goexits_of_unused s hu]; exact noCtx_cancel h
    · rw [finish_goexits_of_used s hu]; exact h

theorem noCtx_applyEvent {g : Group} (ev : Event) (h : NoCtx g) :
    NoCtx (g.applyEvent ev) := by
  rcases ev with t | _ | _ | _
  · exact noCtx_finish t.stack t.term h
  · exact noCtx_cancel h
  · show NoCtx (g.wait).2
    rw [wait_snd]
    split
    · exact noCtx_cancel h
    · exact h
  · exact h

theorem noCtx_runEvents (evs : List Event) {g : Group} (h : NoCtx g) :
    NoCtx (runEvents g evs) := by
  induction evs generalizing g with
  | nil => exact h
  | cons ev rest ih => exact ih (noCtx_applyEvent ev h)

/-! ### Auxiliary facts about `findSome?` and stack trimming -/

theorem findSome?_id_append_none {α : Type} (a l : List (Option α))
    (h : ∀ x ∈ a, x = none) : ((a ++ l).findSome? id) = l.findSome? id := by
  induction a with
  | nil => rfl
  | cons x rest ih =>
      have hx : x = none := h x (List.mem_cons_self x rest)
      rw [List.cons_append, List.findSome?_cons_of_isNone _ (by simp [hx])]
      exact ih (fun y hy => h y (List.mem_cons_of_mem _ hy))

theorem dropHeadLine_append (line rest : List Char) (h : '\n' ∉ line) :
    trimFirstLine.dropHeadLine (line ++ '\n' :: rest) = rest := by
  induction line with
  | nil => simp [trimFirstLine.dropHeadLine]
  | cons c cs ih =>
      have hc : ¬(c = '\n') := fun hh => h (by simp [hh])
      simp only [List.cons_append, trimFirstLine.dropHeadLine, if_neg hc]
      exact ih (fun hm => h (by simp [hm]))

theorem trimFirstLine_append (line rest : List Char) (h : '\n' ∉ line) :
    trimFirstLine (line ++ '\n' :: rest) = rest := by
  unfold trimFirstLine
  rw [if_pos (by simp), dropHeadLine_append line rest h]

/-! ### The join model: interleaved task lifecycles against the
`sync.WaitGroup` counter.

`Go` performs `wg.Add(1)` before launching; each goroutine performs its
outcome-slot commit strictly before its deferred `wg.Done()`; `Wait` and
`Stop` proceed only once the counter reads zero. -/

namespace JoinModel

/-- The lifecycle phase of one goroutine launched by `Go`: still running
its body, outcome commit done but `wg.Done()` not yet executed, or fully
done. -/
inductive Phase where
  | running : Phase
  | committed : Phase
  | done : Phase
deriving DecidableEq, Repr

/-- A task still counts as live until its `wg.Done()` has executed. -/
def Phase.isLive : Phase → Bool
  | .done => false
  | _ => true

/-- The join state: one phase per launched task, plus the counter the
blocked `Wait`/`Stop` caller observes. -/
structure Sys where
  tasks : List Phase
  pending : Nat
deriving DecidableEq, Repr

/-- One atomic step of the interleaved execution: `Go` registers and
launches a task; a running task commits its outcome-slot writes; a task
that has committed executes `wg.Done()` (the decrement is ordered after
that same task's outcome write, as in the source's `defer`). -/
inductive SysStep : Sys → Sys → Prop where
  | spawn (ts : List Phase) (n : Nat) :
      SysStep ⟨ts, n⟩ ⟨ts ++ [.running], n + 1⟩
  | commit (pre post : List Phase) (n : Nat) :
      SysStep ⟨pre ++ .running :: post, n⟩ ⟨pre ++ .committed :: post, n⟩
  | wgDone (pre post : List Phase) (n : Nat) :
      SysStep ⟨pre ++ .committed :: post, n⟩ ⟨pre ++ .done :: post, n - 1⟩

/-- The initial state: no tasks registered, counter zero. -/
def initSys : Sys := ⟨[], 0⟩

/-- States reachable from the initial state by interleaved steps. -/
def SysReaches (s : Sys) : Prop := Relation.ReflTransGen SysStep initSys s

theorem pending_eq_live_step {s s' : Sys} (st : SysStep s s')
    (h : s.pending = s.tasks.countP (fun p => p.isLive)) :
    s'.pending = s'.tasks.countP (fun p => p.isLive) := by
  cases st with
  | spawn ts n =>
      simp_all [List.countP_append, List.countP_cons, Phase.isLive]
  | commit pre post n =>
      simp_all [List.countP_append, List.countP_cons, Phase.isLive]
  | wgDone pre post n =>
      simp_all [List.countP_append, List.countP_cons, Phase.isLive]

theorem reaches_pending_eq_live {s : Sys} (h : SysReaches s) :
    s.pending = s.tasks.countP (fun p => p.isLive) := by
  induction h with
  | refl => rfl
  | tail _ hstep ih => exact pending_eq_live_step hstep ih

/-- C5: by the time `Wait` (or `Stop`) can return — the counter observed at
zero — every task launched via `Go` has fully finished: no task is still
running and no outcome-slot write is still in flight, because each task's
decrement is ordered after its own outcome write. -/
theorem join_complete (s : Sys) (h : SysReaches s) (hp : s.pending = 0) :
    ∀ p ∈ s.tasks, p = .done := by
  have hinv := reaches_pending_eq_live h
  rw [hp] at hinv
  intro p hmem
  have hnl := List.countP_eq_zero.mp hinv.symm p hmem
  cases p
  · simp [Phase.isLive] at hnl
  · simp [Phase.isLive] at hnl
  · rfl

theorem join_complete_witness :
    (Sys.mk [Phase.done] 0).pending = 0 ∧ Phase.done = Phase.done :=
  ⟨rfl,
   join_complete ⟨[.done], 0⟩
     (Relation.ReflTransGen.tail
       (Relation.ReflTransGen.tail
         (Relation.ReflTransGen.tail Relation.ReflTransGen.refl
           (SysStep.spawn [] 0))
         (SysStep.commit [] [] 1))
       (SysStep.wgDone [] [] 1))
     rfl Phase.done (List.mem_cons_self _ _)⟩

end JoinModel

/-! ### The claims -/

/-- C1: for a group on which `Wait` runs after all tasks have finished,
`Wait` surfaces exactly one outcome by fixed priority: a recorded
abandonment is re-propagated as `runtime.Goexit`; otherwise a captured
panic value is re-raised (even when `firstError` is also set); otherwise
the first error is returned; otherwise `Wait` returns nil. -/
theorem wait_resolution_priority (g0 : Group) (h0 : g0.Fresh) (l : List TaskRun) :
    ((runTasks g0 l).goexit = true → ((runTasks g0 l).wait).1 = .goexited) ∧
    (∀ pv, (runTasks g0 l).panicV = some pv →
      ((runTasks g0 l).wait).1 = .panicked pv) ∧
    ((runTasks g0 l).panicV = none → (runTasks g0 l).goexit = false →
      ((runTasks g0 l).wait).1 = .ret (runTasks g0 l).err) := by
  have hinv := termInv_runTasks l (fresh_termInv h0)
  refine ⟨?_, ?_, ?_⟩
  · intro hgo
    have hp : (runTasks g0 l).panicV = none := by
      rcases hq : (runTasks g0 l).panicV with _ | pv
      · rfl
      · exact absurd ⟨by simp [hq], hgo⟩ hinv.2
    rw [wait_fst]
    simp [hp, hgo]
  · intro pv hp
    rw [wait_fst]
    simp [hp]
  · intro hp hgo
    rw [wait_fst]
    simp [hp, hgo]

theorem wait_resolution_priority_witness :
    ((runTasks zeroGroup [⟨[], .goexits⟩]).wait).1 = .goexited :=
  (wait_resolution_priority zeroGroup (by decide) [⟨[], .goexits⟩]).1 (by decide)

/-- C2: the `firstError` slot is written exactly once, by the first
committer, and is never overwritten: after any commit-order sequence of
normally-returning tasks the stored error is the first non-nil one and
`Wait` returns it; in particular, for any interleaving of
`[nil, err1, nil, err2]` in which `err1` commits first, `Wait` returns
exactly `err1`. -/
theorem first_error_wins :
    (∀ l : List (Option GoError),
      (runTasks zeroGroup (l.map fun e => ⟨[], .returns e⟩)).err = l.findSome? id ∧
      ((runTasks zeroGroup (l.map fun e => ⟨[], .returns e⟩)).wait).1
        = .ret (l.findSome? id)) ∧
    (∀ (e1 e2 : GoError) (a b c : List (Option GoError)),
      (∀ x ∈ a, x = none) → (∀ x ∈ b, x = none) → (∀ x ∈ c, x = none) →
      ((runTasks zeroGroup ((a ++ some e1 :: b ++ some e2 :: c).map
          fun e => ⟨[], .returns e⟩)).wait).1 = .ret (some e1)) := by
  have main : ∀ l : List (Option GoError),
      (runTasks zeroGroup (l.map fun e => ⟨[], .returns e⟩)).err = l.findSome? id ∧
      ((runTasks zeroGroup (l.map fun e => ⟨[], .returns e⟩)).wait).1
        = .ret (l.findSome? id) := by
    intro l
    have herr := runTasks_normals_err l zeroGroup rfl rfl
    obtain ⟨hp, hg, -⟩ := runTasks_normals_term l zeroGroup
    refine ⟨herr, ?_⟩
    rw [wait_fst]
    simp only [hp, hg, herr]
    rfl
  refine ⟨main, ?_⟩
  intro e1 e2 a b c ha hb hc
  have hfs : ((a ++ some e1 :: b ++ some e2 :: c).findSome? id) = some e1 := by
    rw [List.append_assoc, List.cons_append,
      findSome?_id_append_none a _ ha,
      List.findSome?_cons_of_isSome _ (by simp)]
    rfl
  rw [(main (a ++ some e1 :: b ++ some e2 :: c)).2, hfs]

theorem first_error_wins_witness :
    ((runTasks zeroGroup (([none, some ⟨['1']⟩, none, some ⟨['2']⟩]).map
        fun e => ⟨[], .returns e⟩)).wait).1 = .ret (some ⟨['1']⟩) :=
  first_error_wins.2 ⟨['1']⟩ ⟨['2']⟩ [none] [none] []
    (by decide) (by decide) (by decide)

/-- C3 (counterexample): one task panics and commits before another task
invokes `runtime.Goexit`; the abandoned flag ends up not set and `Wait`
re-raises the panic, contradicting the claim that abandonment takes
precedence in either arrival order. -/
theorem goexit_precedence_cex :
    (runTasks NewGroup [⟨['g', '\n', 's'], .panics (.stringValue ['b'])⟩,
        ⟨[], .goexits⟩]).goexit = false ∧
    ((runTasks NewGroup [⟨['g', '\n', 's'], .panics (.stringValue ['b'])⟩,
        ⟨[], .goexits⟩]).wait).1
      = .panicked (.wrapped ⟨.stringValue ['b'], ['s']⟩) ∧
    ((runTasks NewGroup [⟨['g', '\n', 's'], .panics (.stringValue ['b'])⟩,
        ⟨[], .goexits⟩]).wait).1 ≠ .goexited := by decide

/-- C3 (amended): between a Goexiting task and a panicking task, the shared
`terminateOnce` guard makes whichever commits first win. When the Goexit
commits first the abandoned flag is set, the panic is never captured, and
`Wait` propagates the abandonment; when the panic commits first the panic is
captured, the abandonment is never recorded, and `Wait` re-raises the
panic. -/
theorem goexit_panic_first_commit_wins (g0 : Group) (h0 : g0.Fresh)
    (s1 s2 : List Char) (v : PanicPayload) :
    ((runTasks g0 [⟨s1, .goexits⟩, ⟨s2, .panics v⟩]).goexit = true ∧
      (runTasks g0 [⟨s1, .goexits⟩, ⟨s2, .panics v⟩]).panicV = none ∧
      ((runTasks g0 [⟨s1, .goexits⟩, ⟨s2, .panics v⟩]).wait).1 = .goexited) ∧
    ((runTasks g0 [⟨s1, .panics v⟩, ⟨s2, .goexits⟩]).goexit = false ∧
      (runTasks g0 [⟨s1, .panics v⟩, ⟨s2, .goexits⟩]).panicV
        = some (errorOrStack v s1) ∧
      ((runTasks g0 [⟨s1, .panics v⟩, ⟨s2, .goexits⟩]).wait).1
        = .panicked (errorOrStack v s1)) := by
  obtain ⟨he, hu, hp, hg, ht⟩ := h0
  constructor
  · have hrun : runTasks g0 [⟨s1, .goexits⟩, ⟨s2, .panics v⟩]
        = (g0.finish s1 .goexits).finish s2 (.panics v) := rfl
    obtain ⟨h1p, h1g, h1u⟩ := finish_goexits_fields s1 ht
    obtain ⟨h2p, h2g, -⟩ := finish_term_of_used s2 (.panics v) h1u
    have hgo : (runTasks g0 [⟨s1, .goexits⟩, ⟨s2, .panics v⟩]).goexit = true := by
      rw [hrun, h2g, h1g]
    have hpa : (runTasks g0 [⟨s1, .goexits⟩, ⟨s2, .panics v⟩]).panicV = none := by
      rw [hrun, h2p, h1p, hp]
    refine ⟨hgo, hpa, ?_⟩
    rw [wait_fst]
    simp [hpa, hgo]
  · have hrun : runTasks g0 [⟨s1, .panics v⟩, ⟨s2, .goexits⟩]
        = (g0.finish s1 (.panics v)).finish s2 .goexits := rfl
    obtain ⟨h1p, h1g, h1u⟩ := finish_panics_fields s1 v ht
    obtain ⟨h2p, h2g, -⟩ := finish_term_of_used s2 .goexits h1u
    have hgo : (runTasks g0 [⟨s1, .panics v⟩, ⟨s2, .goexits⟩]).goexit = false := by
      rw [hrun, h2g, h1g, hg]
    have hpa : (runTasks g0 [⟨s1, .panics v⟩, ⟨s2, .goexits⟩]).panicV
        = some (errorOrStack v s1) := by
      rw [hrun, h2p, h1p]
    refine ⟨hgo, hpa, ?_⟩
    rw [wait_fst]
    simp [hpa]

theorem goexit_panic_first_commit_wins_witness :
    (runTasks zeroGroup [⟨[], .goexits⟩, ⟨[], .panics .nilValue⟩]).goexit = true :=
  ((goexit_panic_first_commit_wins zeroGroup (by decide) [] [] .nilValue).1).1

/-- C4: a panic payload implementing `error` is re-raised unchanged; any
other payload is wrapped together with a stack trace whose first line is
stripped, and in every case the printable form of the re-raised value
begins with the printable form of the original payload. -/
theorem panic_payload_preservation (v : PanicPayload) (s : List Char) :
    (∀ e, v = .errorValue e → errorOrStack v s = .plain (.errorValue e)) ∧
    (v.isError = false → errorOrStack v s = .wrapped ⟨v, trimFirstLine s⟩) ∧
    (∀ line rest, '\n' ∉ line → trimFirstLine (line ++ '\n' :: rest) = rest) ∧
    goSprint v <+: (errorOrStack v s).sprint := by
  refine ⟨?_, ?_, fun line rest h => trimFirstLine_append line rest h, ?_⟩
  · intro e h
    subst h
    simp [errorOrStack, PanicPayload.isError]
  · intro h
    simp [errorOrStack, h]
  · cases hv : v.isError
    · rw [show errorOrStack v s = .wrapped ⟨v, trimFirstLine s⟩ by
        simp [errorOrStack, hv]]
      show goSprint v <+: panicStack.string ⟨v, trimFirstLine s⟩
      unfold panicStack.string
      rw [List.append_assoc]
      exact List.prefix_append _ _
    · rw [show errorOrStack v s = .plain v by simp [errorOrStack, hv]]
      exact ⟨[], List.append_nil _⟩

theorem panic_payload_preservation_witness :
    errorOrStack (.errorValue ⟨['e']⟩) ['x'] = .plain (.errorValue ⟨['e']⟩) ∧
    errorOrStack (.stringValue ['s']) ['x', '\n', 'y']
      = .wrapped ⟨.stringValue ['s'], trimFirstLine ['x', '\n', 'y']⟩ ∧
    trimFirstLine (['a'] ++ '\n' :: ['b']) = ['b'] ∧
    goSprint .nilValue <+: (errorOrStack .nilValue ['x']).sprint :=
  ⟨(panic_payload_preservation (.errorValue ⟨['e']⟩) ['x']).1 _ rfl,
   (panic_payload_preservation (.stringValue ['s']) ['x', '\n', 'y']).2.1 (by decide),
   (panic_payload_preservation .nilValue []).2.2.1 ['a'] ['b'] (by decide),
   (panic_payload_preservation .nilValue ['x']).2.2.2⟩

/-- C6: `Wait` fires the cancellation signal before returning — even on
full success — exactly for groups built with the legacy `WithContext`
constructor; on a group whose `cancelOnWait` flag is unset (as built by
`New` or zero-valued) `Wait` changes no state, and an all-success run under
`New` never invokes the bound cancel function while the same run under
`WithContext` invokes it exactly once, from `Wait`. -/
theorem wait_autocancel_iff_withContext (l : List TaskRun) :
    (((runTasks WithContextGroup l).wait).2.cancelOnceUsed = true) ∧
    (∀ g0 : Group, g0.cancelOnWait = false →
      ((runTasks g0 l).wait).2 = runTasks g0 l) ∧
    ((∀ x ∈ l, x.term = .returns none) →
      ((runTasks WithContextGroup l).wait).2.ctxCancelCount = 1 ∧
        ((runTasks NewGroup l).wait).2.ctxCancelCount = 0) := by
  refine ⟨?_, ?_, ?_⟩
  · rw [wait_snd, if_pos (by rw [runTasks_cancelOnWait]; decide)]
    exact cancel_cancelOnceUsed _
  · intro g0 h
    rw [wait_snd, if_neg (by rw [runTasks_cancelOnWait, h]; simp)]
  · intro hl
    obtain ⟨hu1, hc1⟩ := runTasks_success_cancel l WithContextGroup hl
    obtain ⟨-, hc2⟩ := runTasks_success_cancel l NewGroup hl
    constructor
    · rw [wait_snd, if_pos (by rw [runTasks_cancelOnWait]; decide)]
      have hstep : ((runTasks WithContextGroup l).cancel).ctxCancelCount
          = (runTasks WithContextGroup l).ctxCancelCount
            + (if (runTasks WithContextGroup l).hasCancelCtx then 1 else 0) := by
        rw [cancel_of_unused (hu1.trans (by decide))]
      rw [hstep, hc1, runTasks_hasCancelCtx]
      decide
    · rw [wait_snd, if_neg (by rw [runTasks_cancelOnWait]; decide)]
      exact hc2.trans (by decide)

theorem wait_autocancel_iff_withContext_witness :
    ((runTasks zeroGroup []).wait).2 = runTasks zeroGroup [] ∧
    (((runTasks WithContextGroup []).wait).2.ctxCancelCount = 1 ∧
      ((runTasks NewGroup []).wait).2.ctxCancelCount = 0) :=
  ⟨(wait_autocancel_iff_withContext []).2.1 zeroGroup rfl,
   (wait_autocancel_iff_withContext []).2.2 (by simp)⟩

/-- C7: `Stop` fires the cancellation signal unconditionally and never
inspects or changes any captured outcome slot; it is idempotent, safe
after `Wait` has returned, and when the signal has already fired it is a
pure join that re-fires nothing. -/
theorem stop_semantics (g : Group) :
    (g.stop).cancelOnceUsed = true ∧
    (g.stop).err = g.err ∧ (g.stop).panicV = g.panicV ∧
    (g.stop).goexit = g.goexit ∧ (g.stop).errOnceUsed = g.errOnceUsed ∧
    (g.stop).terminateOnceUsed = g.terminateOnceUsed ∧
    (g.stop).pending = g.pending ∧
    (g.stop).stop = g.stop ∧
    (((g.wait).2).stop).stop = ((g.wait).2).stop ∧
    (g.cancelOnceUsed = true → g.stop = g) :=
  ⟨cancel_cancelOnceUsed g, cancel_err g, cancel_panicV g, cancel_goexit g,
   cancel_errOnceUsed g, cancel_terminateOnceUsed g, cancel_pending g,
   cancel_of_used (cancel_cancelOnceUsed g),
   cancel_of_used (cancel_cancelOnceUsed _),
   fun h => cancel_of_used h⟩

theorem stop_semantics_witness :
    ({ zeroGroup with cancelOnceUsed := true } : Group).stop
      = { zeroGroup with cancelOnceUsed := true } :=
  (stop_semantics { zeroGroup with cancelOnceUsed := true
    }).2.2.2.2.2.2.2.2.2 rfl

/-- C8: the cancellation signal is one-shot and idempotent — over a whole
group lifetime (task completions of every kind, `Stop` calls, `Wait`
calls, `Go` registrations, in any order) the bound context-cancel function
runs at most once. -/
theorem cancel_at_most_once (g0 : Group) (h1 : g0.ctxCancelCount = 0)
    (_h2 : g0.cancelOnceUsed = false) (evs : List Event) :
    (runEvents g0 evs).ctxCancelCount ≤ 1 :=
  (cancelInv_runEvents evs ⟨by simp [h1], fun _ => h1⟩).1

theorem cancel_at_most_once_witness :
    (runEvents NewGroup
        [.stopCall, .stopCall, .task ⟨[], .returns (some ⟨['e']⟩)⟩]).ctxCancelCount
      ≤ 1 :=
  cancel_at_most_once NewGroup rfl rfl
    [.stopCall, .stopCall, .task ⟨[], .returns (some ⟨['e']⟩)⟩]

/-- C9: a zero-value `Group` is valid: with no tasks, `Wait` returns nil
(no panic, no Goexit), and every cancellation-triggering path over its
whole lifetime is a no-op on the absent context because no cancel function
is bound. -/
theorem zero_group_valid :
    ((zeroGroup.wait).1 = .ret none) ∧
    (∀ evs : List Event, (runEvents zeroGroup evs).ctxCancelCount = 0) :=
  ⟨by decide, fun evs => (noCtx_runEvents evs ⟨rfl, rfl⟩).2⟩

/-- C10: the panic slot and the goexit flag share the one-shot
`terminateOnce` guard: over a group's lifetime at most one of the two is
ever set, whichever abnormal termination commits first claims it, and once
claimed no later task completion changes either slot. -/
theorem terminate_slots_mutually_exclusive (g0 : Group) (h0 : g0.Fresh)
    (l : List TaskRun) :
    ¬((runTasks g0 l).panicV.isSome = true ∧ (runTasks g0 l).goexit = true) ∧
    ((runTasks g0 l).terminateOnceUsed = false →
      (runTasks g0 l).panicV = none ∧ (runTasks g0 l).goexit = false) ∧
    (∀ s t, (runTasks g0 l).terminateOnceUsed = true →
      ((runTasks g0 l).finish s t).panicV = (runTasks g0 l).panicV ∧
        ((runTasks g0 l).finish s t).goexit = (runTasks g0 l).goexit) := by
  have hinv := termInv_runTasks l (fresh_termInv h0)
  exact ⟨hinv.2, hinv.1,
    fun s t hu =>
      ⟨(finish_term_of_used s t hu).1, (finish_term_of_used s t hu).2.1⟩⟩

theorem terminate_slots_mutually_exclusive_witness :
    ¬((runTasks zeroGroup [⟨['\n'], .panics .nilValue⟩]).panicV.isSome = true ∧
      (runTasks zeroGroup [⟨['\n'], .panics .nilValue⟩]).goexit = true) :=
  (terminate_slots_mutually_exclusive zeroGroup (by decide)
    [⟨['\n'], .panics .nilValue⟩]).1

example :
    (runTasks zeroGroup [⟨[], .returns (some ⟨['a']⟩)⟩, ⟨[], .returns (some ⟨['b']⟩)⟩]).err
      = some ⟨['a']⟩ := by decide

example :
    (runTasks NewGroup [⟨['x', '\n', 'y'], .panics .nilValue⟩, ⟨[], .goexits⟩]).goexit
      = false := by decide

example :
    ((runTasks NewGroup [⟨[], .goexits⟩, ⟨[], .panics .nilValue⟩]).wait).1
      = .goexited := by decide

end Errgroup
